/-
Verification development for the Odin level-0 ingest engine.

The definitions below are a shallow embedding, in Lean 4, of the decoder
and import/merge code of the repository:
  * `level0/import_l0/handler/import_level0.py` (stw_correction, get_seq,
    getAC zero-lag correction loop, getATT closeness pass, import_file),
  * `level0/import_l0/handler/level0.py` (ACfile.IntTime),
  * `level0/import_l0/handler/attitude.py` (AttitudeParser.getLine and the
    data-reading loop of AttitudeParser).

Conventions of the embedding:
  * Python strings and file paths are `List Char`; `os.path.basename` and
    `os.path.splitext` are translated at the character-list level.
  * Unsigned 16-bit words read from the binary stream are `Nat` (struct
    format "H" guarantees 0 ≤ w < 65536; no arithmetic below overflows).
  * numpy int64 values are `Int`.  `np.bitwise_and(x, 0xf)` on int64 is
    two's-complement, hence equal to the Euclidean remainder `x % 16`,
    which is how the low-nibble extraction is written here.
  * Python floats that only ever feed exact comparisons (integration
    times, quaternion error components) are modelled as `ℚ`; the decimal
    values involved are exact in both models as far as the claims reach.
-/
import Mathlib

namespace OdinL0

/-! ## Filename utilities (source: `import_level0.py`, `stw_correction`) -/

/-- Value of one hexadecimal digit, as accepted by Python `int(s, 16)`
(digits, lower- and upper-case letters). -/
def hexDigitVal (c : Char) : Nat :=
  if 48 ≤ c.toNat ∧ c.toNat ≤ 57 then c.toNat - 48
  else if 97 ≤ c.toNat ∧ c.toNat ≤ 102 then c.toNat - 87
  else if 65 ≤ c.toNat ∧ c.toNat ≤ 70 then c.toNat - 55
  else 0

/-- Recogniser for hexadecimal digits (0-9, a-f, A-F). -/
def isHexDigitCh (c : Char) : Bool :=
  (decide (48 ≤ c.toNat) && decide (c.toNat ≤ 57))
  || (decide (97 ≤ c.toNat) && decide (c.toNat ≤ 102))
  || (decide (65 ≤ c.toNat) && decide (c.toNat ≤ 70))

/-- Python `int(s, 16)` on a string of hexadecimal digits. -/
def parseHex (cs : List Char) : Nat :=
  cs.foldl (fun a c => 16 * a + hexDigitVal c) 0

/-- Python `os.path.basename`: the part of the path after the last
path separator. -/
def pyBasename (cs : List Char) : List Char :=
  (cs.reverse.takeWhile (fun c => c ≠ '/')).reverse

/-- Stem part of Python `os.path.splitext` applied to a basename: cut at
the last dot, except that a run of leading dots never starts an
extension. -/
def splitextStem (b : List Char) : List Char :=
  if (b.dropWhile (fun c => c = '.')).any (fun c => c = '.') then
    ((b.reverse.dropWhile (fun c => c ≠ '.')).tail).reverse
  else b

/-- Extension part of Python `os.path.splitext` applied to a basename
(includes the leading dot when an extension exists). -/
def splitextExt (b : List Char) : List Char :=
  if (b.dropWhile (fun c => c = '.')).any (fun c => c = '.') then
    '.' :: (b.reverse.takeWhile (fun c => c ≠ '.')).reverse
  else []

/-- `stw_correction` from `import_level0.py`: parse the hex stem of the
file name, shift left by 4 bits and mask with 0xF00000000. -/
def stw_correction (datafile : List Char) : Nat :=
  (parseHex (splitextStem (pyBasename datafile)) <<< 4) &&& 0xF00000000

/-! ## Chip topology (source: `import_level0.py`, `get_seq`) -/

/-- First loop of `get_seq`: distribute the (sentinel-extended) mode bits
into run lengths stored at the even slots of a 16-slot sequence.  The
state is (seq, m, remaining mode bits). -/
def seqRunLoop (mode : Nat) : List Int :=
  let md0 := (mode <<< 1) ||| 1
  let step : (List Int × Nat × Nat) → Nat → (List Int × Nat × Nat) :=
    fun s i =>
      let m := if s.2.2 % 2 = 1 then i else s.2.1
      (s.1.set (2 * m) (s.1.getD (2 * m) 0 + 1), m, s.2.2 / 2)
  ((List.range 8).foldl step (List.replicate 16 0, 0, md0)).1

/-- The fixed sideband-sign table `ssb` of `get_seq`. -/
def ssbTable : List Int := [1, -1, 1, -1, -1, 1, -1, 1]

/-- Second loop of `get_seq`: write the sideband sign of every populated
pair into the odd slots of the sequence. -/
def seqOf (mode : Nat) : List Int :=
  (List.range 8).foldl
    (fun seq i =>
      if seq.getD (2 * i) 0 ≠ 0 then
        if ssbTable.getD i 0 < 0 then seq.set (2 * i + 1) (-1)
        else seq.set (2 * i + 1) 1
      else seq.set (2 * i + 1) 0)
    (seqRunLoop mode)

/-- Third loop of `get_seq`: group the run lengths into cascaded bands;
returns (chips, band starts). -/
def chipsLoop (seq : List Int) : List (List Nat) × List Nat :=
  let step : (List (List Nat) × List Nat × Nat) → Nat →
      (List (List Nat) × List Nat × Nat) :=
    fun s ind =>
      if ind = s.2.2 then
        let se := (seq.getD ind 0).toNat
        (s.1 ++ [List.range' (ind / 2) se], s.2.1 ++ [ind / 2], ind + 2 * se)
      else s
  let r := (List.range 16).foldl step ([], [], 0)
  (r.1, r.2.1)

/-- `get_seq` from `import_level0.py`: the chip configuration decoded
from the mode byte, as (seq, chips, band_start). -/
def get_seq (mode : Nat) : List Int × List (List Nat) × List Nat :=
  let seq := seqOf mode
  let cb := chipsLoop seq
  (seq, cb.1, cb.2)

/-- A non-empty list of consecutive indices starting at its head. -/
def isRangeFromHead (b : List Nat) : Bool :=
  !b.isEmpty && b == List.range' (b.headD 0) b.length

/-- Every element of every earlier list is absent from every later list. -/
def pairwiseDisjointB : List (List Nat) → Bool
  | [] => true
  | b :: rest =>
    (rest.all fun c => b.all fun x => !c.contains x) && pairwiseDisjointB rest

/-- Strictly increasing list of naturals. -/
def strictIncrB : List Nat → Bool
  | [] => true
  | [_] => true
  | a :: b :: t => decide (a < b) && strictIncrB (b :: t)

/-- The well-formedness predicate of claim C9 over the output of
`get_seq`: bands are non-empty consecutive ranges, pairwise disjoint,
their concatenation is exactly 0..7, and band_start lists the heads in
strictly increasing order. -/
def bandsOK (r : List Int × List (List Nat) × List Nat) : Bool :=
  (r.2.1.all isRangeFromHead)
  && (r.2.1.flatten == List.range 8)
  && (r.2.2 == r.2.1.map fun b => b.headD 0)
  && pairwiseDisjointB r.2.1
  && strictIncrB r.2.2

/-! ## Claim C1 -/

/-- Hexadecimal digits are neither dots nor path separators. -/
theorem isHexDigitCh_ne (c : Char) (h : isHexDigitCh c = true) :
    c ≠ '.' ∧ c ≠ '/' := by
  constructor <;> rintro rfl <;> exact absurd h (by decide)

/-- Dropping a satisfied prefix commutes with appending. -/
theorem dropWhile_append_all {p : Char → Bool} {l1 l2 : List Char}
    (h : ∀ x ∈ l1, p x = true) :
    (l1 ++ l2).dropWhile p = l2.dropWhile p := by
  induction l1 with
  | nil => rfl
  | cons a t ih =>
    simp only [List.cons_append, List.dropWhile_cons,
      h a (List.mem_cons_self a t), if_true]
    exact ih fun x hx => h x (List.mem_cons_of_mem a hx)

/-- `pyBasename` is the identity on paths without separators. -/
theorem pyBasename_no_sep {cs : List Char} (h : ∀ c ∈ cs, c ≠ '/') :
    pyBasename cs = cs := by
  unfold pyBasename
  rw [List.takeWhile_eq_self_iff.mpr, List.reverse_reverse]
  intro x hx
  simpa using h x (List.mem_reverse.mp hx)

/-- `splitextStem` extracts the stem of `<stem>.<ext>` when the stem is a
non-empty run of hex digits and the extension holds no dot. -/
theorem splitextStem_hex {ds es : List Char} (hne : ds ≠ [])
    (hhex : ∀ c ∈ ds, isHexDigitCh c = true) (hdot : ∀ c ∈ es, c ≠ '.') :
    splitextStem (ds ++ '.' :: es) = ds := by
  obtain ⟨d0, dt, rfl⟩ : ∃ d0 dt, ds = d0 :: dt := by
    cases ds with
    | nil => exact absurd rfl hne
    | cons a t => exact ⟨a, t, rfl⟩
  have hd0 : (decide (d0 = '.')) = false := by
    simp [(isHexDigitCh_ne d0 (hhex d0 (List.mem_cons_self d0 dt))).1]
  unfold splitextStem
  rw [if_pos]
  · have hrev : ((d0 :: dt) ++ '.' :: es).reverse
        = es.reverse ++ '.' :: (d0 :: dt).reverse := by
      simp
    rw [hrev, dropWhile_append_all (fun x hx => by
      simpa using hdot x (List.mem_reverse.mp hx))]
    have : ('.' :: (d0 :: dt).reverse).dropWhile (fun c => c ≠ '.')
        = '.' :: (d0 :: dt).reverse := by
      rw [List.dropWhile_cons]
      simp
    rw [this]
    simp
  · rw [List.cons_append, List.dropWhile_cons]
    simp only [hd0, if_false]
    refine List.any_eq_true.mpr ⟨'.', ?_, by simp⟩
    simp

/-- C1: for every filename `<stem>.<ext>` whose stem is an 8-hex-digit
string (and whose extension holds no dot or separator), `stw_correction`
parses the stem as a hexadecimal integer, shifts it left by 4 bits and
masks the result with 0xF00000000; in particular the four concrete
values of the spec are reproduced. -/
theorem c1_stw_correction :
    (∀ ds es : List Char, ds.length = 8 →
      (∀ c ∈ ds, isHexDigitCh c = true) →
      (∀ c ∈ es, c ≠ '.' ∧ c ≠ '/') →
      stw_correction (ds ++ '.' :: es) = (parseHex ds <<< 4) &&& 0xF00000000)
    ∧ stw_correction "017f6e6c.ac2".data = 0
    ∧ stw_correction "11f1eafe.fba".data = 1 <<< 32
    ∧ stw_correction "20683ad2.ac2".data = 2 <<< 32
    ∧ stw_correction "30683ad2.ac2".data = 3 <<< 32 := by
  refine ⟨?_, by decide, by decide, by decide, by decide⟩
  intro ds es hlen hhex hes
  have hsep : ∀ c ∈ ds ++ '.' :: es, c ≠ '/' := by
    intro c hc
    rcases List.mem_append.mp hc with h | h
    · exact (isHexDigitCh_ne c (hhex c h)).2
    · rcases List.mem_cons.mp h with rfl | h
      · decide
      · exact (hes c h).2
  unfold stw_correction
  rw [pyBasename_no_sep hsep,
    splitextStem_hex (by rintro rfl; simp at hlen) hhex fun c hc => (hes c hc).1]

/-- Witness for C1: the universally quantified part applied to the
concrete stem "30683ad2" and extension "ac2". -/
theorem c1_stw_correction_witness :
    stw_correction ("30683ad2".data ++ '.' :: "ac2".data)
      = (parseHex "30683ad2".data <<< 4) &&& 0xF00000000 :=
  c1_stw_correction.1 "30683ad2".data "ac2".data (by decide) (by decide)
    (by decide)

/-! ## Claim C3 -/

/-- C3: the chip-topology decode of mode 0 is the single band 0..7 with
starting index 0, and the decode of mode 0x2A is four bands of two chips
each with distinct (strictly increasing) starting indices. -/
theorem c3_get_seq_examples :
    (get_seq 0).2.1 = [[0, 1, 2, 3, 4, 5, 6, 7]]
    ∧ (get_seq 0).2.2 = [0]
    ∧ (get_seq 0x2A).2.1 = [[0, 1], [2, 3], [4, 5], [6, 7]]
    ∧ (get_seq 0x2A).2.2 = [0, 2, 4, 6]
    ∧ (get_seq 0x2A).2.1.length = 4
    ∧ ((get_seq 0x2A).2.1.all fun b => b.length == 2) = true
    ∧ strictIncrB (get_seq 0x2A).2.2 = true := by
  decide

/-! ## Claim C9 -/

set_option maxRecDepth 100000 in
/-- C9: for every 8-bit mode value, the bands decoded by `get_seq`
partition the channel indices 0..7 into non-empty consecutive runs, the
bands are pairwise disjoint, and band_start lists each band's first
index in strictly increasing order. -/
theorem c9_get_seq_partition :
    ∀ m : Fin 256, bandsOK (get_seq m.val) = true := by
  decide

/-! ## AC record builder (source: `import_level0.py`, `getAC`) -/

/-- The 8 × 96 correlation matrix `cc64` of `getAC`, as int64 values. -/
abbrev ACMatrix := Fin 8 → Fin 96 → Int

/-- `np.bitwise_and(x, 0xf)` on an int64 value: two's-complement low
nibble, i.e. the Euclidean remainder modulo 16. -/
def lowNibble (x : Int) : Int := x % 16

/-- The `zlags` vector of `getAC`: per-channel zero-lag hint word
(`head[50 + i]`) shifted left by 4, plus the low nibble of the channel's
first correlation element. -/
def zlagsOf (lags : Fin 8 → Nat) (cc : ACMatrix) (i : Fin 8) : Int :=
  ((lags i <<< 4 : Nat) : Int) + lowNibble (cc i 0)

/-- One iteration of the `for ind in range(8)` loop of `getAC`: when
`ind` starts a band, overwrite the channel's first element with the
zero-lag value and compensate a positive third element by 65536. -/
def ccStep (bs : List Nat) (z : Fin 8 → Int) (cc : ACMatrix) (ind : Nat) :
    ACMatrix :=
  fun i j =>
    if i.val = ind then
      if ind ∈ bs then
        if j = 0 then z i
        else if j = 2 ∧ 0 < cc i 2 then cc i 2 - 65536
        else cc i j
      else cc i j
    else cc i j

/-- The zero-lag correction loop of `getAC` over all 8 channels, with the
band starts taken from `get_seq mode` and `zlags` precomputed from the
original matrix. -/
def ccZeroLagLoop (mode : Nat) (lags : Fin 8 → Nat) (cc : ACMatrix) :
    ACMatrix :=
  (List.range 8).foldl (ccStep (get_seq mode).2.2 (zlagsOf lags cc)) cc

/-- A `ccStep` at an index other than the row's own leaves the row
unchanged. -/
theorem ccStep_ne {bs : List Nat} {z : Fin 8 → Int} {cc : ACMatrix}
    {ind : Nat} {i : Fin 8} {j : Fin 96} (h : i.val ≠ ind) :
    ccStep bs z cc ind i j = cc i j := by
  simp [ccStep, h]

/-- Folding `ccStep` over indices that avoid a row leaves the row
unchanged. -/
theorem foldl_ccStep_notMem {bs : List Nat} {z : Fin 8 → Int}
    (l : List Nat) (cc : ACMatrix) (i : Fin 8) (j : Fin 96)
    (h : i.val ∉ l) :
    (l.foldl (ccStep bs z) cc) i j = cc i j := by
  induction l generalizing cc with
  | nil => rfl
  | cons a t ih =>
    rw [List.foldl_cons, ih _ fun hm => h (List.mem_cons_of_mem a hm)]
    exact ccStep_ne fun he => h (he ▸ List.mem_cons_self a t)

/-- Evaluation of the zero-lag loop at one matrix entry, given a
decomposition of the iteration list around the entry's row. -/
theorem ccLoop_eval (mode : Nat) (lags : Fin 8 → Nat) (cc : ACMatrix)
    (i : Fin 8) (j : Fin 96) (l1 l2 : List Nat)
    (hd : List.range 8 = l1 ++ i.val :: l2)
    (h1 : i.val ∉ l1) (h2 : i.val ∉ l2) :
    ccZeroLagLoop mode lags cc i j =
      if i.val ∈ (get_seq mode).2.2 then
        if j = 0 then zlagsOf lags cc i
        else if j = 2 ∧ 0 < cc i 2 then cc i 2 - 65536
        else cc i j
      else cc i j := by
  unfold ccZeroLagLoop
  rw [hd, List.foldl_append, List.foldl_cons,
    foldl_ccStep_notMem l2 _ i j h2]
  have hrow : ∀ jj : Fin 96,
      (l1.foldl (ccStep (get_seq mode).2.2 (zlagsOf lags cc)) cc) i jj
        = cc i jj :=
    fun jj => foldl_ccStep_notMem l1 cc i jj h1
  simp only [ccStep, if_pos rfl, hrow, if_true]

/-- C2: in the record builder, for every channel starting a logical band
(per the chip-topology decode of the mode byte) the channel's first
correlation element becomes the zero-lag hint word shifted left by 4
plus the low nibble of the channel's original first element, and its
third element loses 65536 exactly when the original third element was
positive; all entries of channels not starting a band, and all other
entries, are unchanged by this loop. -/
theorem c2_zero_lag_correction :
    ∀ (mode : Nat) (lags : Fin 8 → Nat) (cc : ACMatrix) (i : Fin 8)
      (j : Fin 96),
      ccZeroLagLoop mode lags cc i j =
        if i.val ∈ (get_seq mode).2.2 then
          if j = 0 then ((lags i <<< 4 : Nat) : Int) + cc i 0 % 16
          else if j = 2 ∧ 0 < cc i 2 then cc i 2 - 65536
          else cc i j
        else cc i j := by
  intro mode lags cc i j
  fin_cases i
  · simpa [zlagsOf, lowNibble] using
      ccLoop_eval mode lags cc 0 j [] [1, 2, 3, 4, 5, 6, 7] (by decide)
        (by decide) (by decide)
  · simpa [zlagsOf, lowNibble] using
      ccLoop_eval mode lags cc 1 j [0] [2, 3, 4, 5, 6, 7] (by decide)
        (by decide) (by decide)
  · simpa [zlagsOf, lowNibble] using
      ccLoop_eval mode lags cc 2 j [0, 1] [3, 4, 5, 6, 7] (by decide)
        (by decide) (by decide)
  · simpa [zlagsOf, lowNibble] using
      ccLoop_eval mode lags cc 3 j [0, 1, 2] [4, 5, 6, 7] (by decide)
        (by decide) (by decide)
  · simpa [zlagsOf, lowNibble] using
      ccLoop_eval mode lags cc 4 j [0, 1, 2, 3] [5, 6, 7] (by decide)
        (by decide) (by decide)
  · simpa [zlagsOf, lowNibble] using
      ccLoop_eval mode lags cc 5 j [0, 1, 2, 3, 4] [6, 7] (by decide)
        (by decide) (by decide)
  · simpa [zlagsOf, lowNibble] using
      ccLoop_eval mode lags cc 6 j [0, 1, 2, 3, 4, 5] [7] (by decide)
        (by decide) (by decide)
  · simpa [zlagsOf, lowNibble] using
      ccLoop_eval mode lags cc 7 j [0, 1, 2, 3, 4, 5, 6] [] (by decide)
        (by decide) (by decide)

/-! ## Integration time (source: `level0.py`, `ACfile.IntTime`, and
`import_level0.py`, `getAC`) -/

/-- `ACfile.IntTime`: integration time computed from the prescaler word
(word 49) and the sample count (word 12); 0 when the prescaler lies
outside [2, 6].  The float division by 10.0e6 is modelled exactly in ℚ;
zero-ness agrees between the two models. -/
def IntTime (words : List Nat) : ℚ :=
  let prescaler := words.getD 49 0
  if 2 ≤ prescaler ∧ prescaler ≤ 6 then
    (((words.getD 12 0 &&& 0xFFFF) <<< (14 - prescaler) : Nat) : ℚ)
      / 10000000
  else 0

/-- The `inttime` field written by `getAC`: the sentinel 9999 when
`IntTime` returns 0, otherwise the `IntTime` value. -/
def getACinttime (words : List Nat) : ℚ :=
  if IntTime words = 0 then 9999 else IntTime words

/-- The integration time can never reach the sentinel value. -/
theorem intTime_ne_sentinel (words : List Nat) : IntTime words ≠ 9999 := by
  simp only [IntTime]
  split
  · intro h
    rw [div_eq_iff (by norm_num)] at h
    have hle : (words.getD 12 0 &&& 0xFFFF) <<< (14 - words.getD 49 0)
        ≤ 65535 <<< 12 := by
      rw [Nat.shiftLeft_eq, Nat.shiftLeft_eq]
      have h1 : words.getD 12 0 &&& 0xFFFF ≤ 65535 := Nat.and_le_right
      have h2 : (2 : Nat) ^ (14 - words.getD 49 0) ≤ 2 ^ 12 := by
        apply Nat.pow_le_pow_right (by norm_num)
        omega
      exact Nat.mul_le_mul h1 h2
    have : ((words.getD 12 0 &&& 0xFFFF) <<< (14 - words.getD 49 0) : ℚ)
        = 99990000000 := by linarith
    have hnat : (words.getD 12 0 &&& 0xFFFF) <<< (14 - words.getD 49 0)
        = 99990000000 := by exact_mod_cast this
    omega
  · norm_num

/-- C4: `IntTime` returns 0 whenever the prescaler word (word 49) lies
outside [2, 6]; and the `inttime` field of the record built by `getAC`
equals the sentinel 9999 exactly when `IntTime` returns 0, otherwise it
equals the `IntTime` value. -/
theorem c4_inttime_sentinel :
    ∀ words : List Nat,
      ((words.getD 49 0 < 2 ∨ 6 < words.getD 49 0) → IntTime words = 0)
      ∧ (getACinttime words = 9999 ↔ IntTime words = 0)
      ∧ (IntTime words ≠ 0 → getACinttime words = IntTime words) := by
  intro words
  refine ⟨fun h => ?_, ⟨fun h => ?_, fun h => ?_⟩, fun h => ?_⟩
  · simp only [IntTime]
    rw [if_neg (by omega)]
  · by_contra hne
    rw [getACinttime, if_neg hne] at h
    exact intTime_ne_sentinel words h
  · rw [getACinttime, if_pos h]
  · rw [getACinttime, if_neg h]

/-- Witness for C4: a header whose prescaler word is 7 (out of range)
yields integration time 0 and the sentinel 9999 in the record. -/
theorem c4_inttime_sentinel_witness :
    IntTime (List.replicate 49 0 ++ [7]) = 0
    ∧ getACinttime (List.replicate 49 0 ++ [7]) = 9999 :=
  ⟨(c4_inttime_sentinel (List.replicate 49 0 ++ [7])).1 (Or.inr (by decide)),
    (c4_inttime_sentinel (List.replicate 49 0 ++ [7])).2.1.mpr
      ((c4_inttime_sentinel (List.replicate 49 0 ++ [7])).1
        (Or.inr (by decide)))⟩

/-! ## Attitude closeness pass (source: `import_level0.py`, `getATT`) -/

/-- One attitude table entry, restricted to the fields the closeness pass
reads: the spacecraft time word (`tbl[key][6]`) and the three quaternion
error components (`tbl[key][10]`).  Table keys are the 8-hex-digit STW
strings, so distinct entries have distinct STWs. -/
structure AttSample where
  stw : Int
  qe1 : ℚ
  qe2 : ℚ
  qe3 : ℚ
deriving DecidableEq

/-- The error vector of a sample, as compared by `qe0 != qe1`. -/
def attQe (s : AttSample) : ℚ × ℚ × ℚ := (s.qe1, s.qe2, s.qe3)

/-- Sum-of-squares magnitude of the error vector, as computed in the
closeness pass. -/
def attErr (s : AttSample) : ℚ :=
  s.qe1 * s.qe1 + s.qe2 * s.qe2 + s.qe3 * s.qe3

/-- The entries deleted from the table by the closeness pass of `getATT`,
scanning the sorted keys with a surviving-cursor `key0`: a pair closer
than 17 ticks with differing error vectors loses its larger-error member
(ties delete the later key and keep the cursor); a close pair with equal
error vectors deletes nothing and keeps the cursor; a far pair deletes
nothing and moves the cursor. -/
def closeDeleted : AttSample → List AttSample → List AttSample
  | _, [] => []
  | k0, k1 :: rest =>
    if k1.stw - k0.stw < 17 then
      if attQe k0 ≠ attQe k1 then
        if attErr k1 < attErr k0 then k0 :: closeDeleted k1 rest
        else k1 :: closeDeleted k0 rest
      else closeDeleted k0 rest
    else closeDeleted k1 rest

/-- The entries of the sorted attitude table that survive the closeness
pass (the final loop of `getATT` walks the original key list and skips
the keys deleted from the table). -/
def attSurvivors : List AttSample → List AttSample
  | [] => []
  | k0 :: rest =>
    (k0 :: rest).filter fun s =>
      !(((closeDeleted k0 rest).map AttSample.stw).contains s.stw)

/-- Counterexample for C5: (a) two consecutive table entries whose STWs
differ by 10 < 17 ticks but whose error vectors are equal are BOTH kept,
because the pass only deletes when the error vectors differ; (b) in a
three-entry table the consecutive pair (10, 20) is closer than 17 ticks
with differing error vectors, yet both of its members survive, because
the pass compares 20 against the cursor 0 (a far pair), not against 10.
So the claim is false as a statement about every consecutive pair. -/
theorem c5_closeness_counterexample :
    (((10 : Int) - 0 < 17)
      ∧ attSurvivors [⟨0, 1, 0, 0⟩, ⟨10, 1, 0, 0⟩]
          = [⟨0, 1, 0, 0⟩, ⟨10, 1, 0, 0⟩])
    ∧ (((20 : Int) - 10 < 17)
      ∧ attQe ⟨10, 1, 0, 0⟩ ≠ attQe ⟨20, 2, 0, 0⟩
      ∧ attSurvivors [⟨0, 1, 0, 0⟩, ⟨10, 1, 0, 0⟩, ⟨20, 2, 0, 0⟩]
          = [⟨0, 1, 0, 0⟩, ⟨10, 1, 0, 0⟩, ⟨20, 2, 0, 0⟩]) := by
  refine ⟨⟨by norm_num, ?_⟩, ⟨by norm_num, ?_, ?_⟩⟩ <;>
    norm_num [attSurvivors, closeDeleted, attQe, attErr, List.filter]

/-- C5 (amended): for a sorted attitude table of exactly two samples
whose STWs differ by fewer than 17 ticks, if the error vectors differ
then exactly one sample survives — the one with the smaller sum-of-
squares error, a tie keeping the earlier key — while if the error
vectors are equal both are kept; two samples 17 or more ticks apart are
both kept.  (For longer tables no such per-pair guarantee holds, see the
counterexample.) -/
theorem c5_closeness_amended :
    (∀ s0 s1 : AttSample, s0.stw < s1.stw → s1.stw - s0.stw < 17 →
      attQe s0 ≠ attQe s1 →
      (attErr s1 < attErr s0 → attSurvivors [s0, s1] = [s1])
      ∧ (¬ attErr s1 < attErr s0 → attSurvivors [s0, s1] = [s0]))
    ∧ (∀ s0 s1 : AttSample, s0.stw < s1.stw → s1.stw - s0.stw < 17 →
      attQe s0 = attQe s1 → attSurvivors [s0, s1] = [s0, s1])
    ∧ (∀ s0 s1 : AttSample, s0.stw < s1.stw → ¬ (s1.stw - s0.stw < 17) →
      attSurvivors [s0, s1] = [s0, s1]) := by
  refine ⟨fun s0 s1 hlt hclose hqe => ⟨fun herr => ?_, fun herr => ?_⟩,
    fun s0 s1 hlt hclose hqe => ?_, fun s0 s1 hlt hfar => ?_⟩
  · simp [attSurvivors, closeDeleted, hclose, hqe, herr, List.filter,
      hlt.ne, hlt.ne']
  · simp [attSurvivors, closeDeleted, hclose, hqe, herr, List.filter,
      hlt.ne, hlt.ne']
  · simp [attSurvivors, closeDeleted, hclose, hqe, List.filter,
      hlt.ne, hlt.ne']
  · simp [attSurvivors, closeDeleted, hfar, List.filter, hlt.ne, hlt.ne']

/-- Witness for C5 (amended): concrete two-sample tables hitting the
smaller-error branch, the equal-vector branch and the far branch. -/
theorem c5_closeness_amended_witness :
    attSurvivors [⟨0, 2, 0, 0⟩, ⟨10, 1, 0, 0⟩] = [⟨10, 1, 0, 0⟩]
    ∧ attSurvivors [⟨0, 3, 0, 0⟩, ⟨10, 3, 0, 0⟩]
        = [⟨0, 3, 0, 0⟩, ⟨10, 3, 0, 0⟩]
    ∧ attSurvivors [⟨0, 2, 0, 0⟩, ⟨40, 1, 0, 0⟩]
        = [⟨0, 2, 0, 0⟩, ⟨40, 1, 0, 0⟩] :=
  ⟨(c5_closeness_amended.1 ⟨0, 2, 0, 0⟩ ⟨10, 1, 0, 0⟩ (by norm_num)
      (by norm_num) (by simp [attQe])).1 (by norm_num [attErr]),
    c5_closeness_amended.2.1 ⟨0, 3, 0, 0⟩ ⟨10, 3, 0, 0⟩ (by norm_num)
      (by norm_num) (by simp [attQe]),
    c5_closeness_amended.2.2 ⟨0, 2, 0, 0⟩ ⟨40, 1, 0, 0⟩ (by norm_num)
      (by norm_num)⟩

/-! ## Attitude data-line reading (source: `attitude.py`,
`AttitudeParser.getLine` and the data loop of `AttitudeParser`) -/

/-- `AttitudeParser.getLine` at the granularity claim C10 needs: a data
line is its list of whitespace-separated columns; a line with fewer than
23 columns yields `None`, otherwise the parsed record (a pure function
of the columns, kept as the columns themselves here). -/
def attGetLine (cols : List String) : Option (List String) :=
  if cols.length < 23 then none else some cols

/-- The `while t:` data-reading loop of `AttitudeParser.__init__`: keep
consuming lines until `getLine` returns `None`, collecting the parsed
records. -/
def attReadLoop : List (List String) → List (List String)
  | [] => []
  | l :: ls =>
    match attGetLine l with
    | none => []
    | some t => t :: attReadLoop ls

/-- C10: the first data line with fewer than 23 columns makes `getLine`
return `None`, which terminates the data-reading loop; every line after
it — well-formed or not — is ignored, so the records read are exactly
those of the prefix before the short line. -/
theorem c10_short_line_stops_loop :
    ∀ (pre : List (List String)) (bad : List String)
      (rest : List (List String)),
      (∀ l ∈ pre, 23 ≤ l.length) → bad.length < 23 →
      attGetLine bad = none ∧ attReadLoop (pre ++ bad :: rest) = pre := by
  intro pre bad rest hpre hbad
  have hb : attGetLine bad = none := by simp [attGetLine, hbad]
  refine ⟨hb, ?_⟩
  induction pre with
  | nil => simp [attReadLoop, hb]
  | cons a t ih =>
    have ha : attGetLine a = some a := by
      simp [attGetLine, Nat.not_lt.mpr (hpre a (List.mem_cons_self a t))]
    simp only [List.cons_append, attReadLoop, ha]
    exact congrArg (a :: ·) (ih fun l hl => hpre l (List.mem_cons_of_mem a hl))

/-- Witness for C10: one valid 23-column line followed by a short line
and two further lines; only the valid prefix is read. -/
theorem c10_short_line_stops_loop_witness :
    attGetLine ["only", "three", "columns"] = none
    ∧ attReadLoop ([List.replicate 23 "0"]
        ++ ["only", "three", "columns"] :: [["later"], List.replicate 23 "1"])
      = [List.replicate 23 "0"] :=
  c10_short_line_stops_loop [List.replicate 23 "0"]
    ["only", "three", "columns"] [["later"], List.replicate 23 "1"]
    (by decide) (by decide)

/-! ## Merge step (source: `import_level0.py`, `import_file`, AC branch
SQL: delete matching rows from `ac_level0`, then insert the staged
rows) -/

/-- A permanent-table row of `ac_level0`, keyed for merging by
(stw, backend); `cols` stands for the remaining serialized columns. -/
structure ACRow where
  stw : Nat
  backend : String
  cols : String
deriving DecidableEq

/-- The merge step of the AC branch of `import_file`: delete every
permanent row whose (stw, backend) matches some staged row, then append
all staged rows. -/
def acMerge (perm staged : List ACRow) : List ACRow :=
  (perm.filter fun r =>
    !(staged.any fun f => f.stw == r.stw && f.backend == r.backend))
    ++ staged

/-- C6: the merge step is idempotent over the staged batch of one file:
merging the same staged rows twice gives the same permanent table as
merging them once — matching rows are replaced, never duplicated. -/
theorem c6_merge_idempotent :
    ∀ perm staged : List ACRow,
      acMerge (acMerge perm staged) staged = acMerge perm staged := by
  intro perm staged
  unfold acMerge
  rw [List.filter_append]
  have h1 : staged.filter (fun r =>
      !(staged.any fun f => f.stw == r.stw && f.backend == r.backend))
      = [] := by
    rw [List.filter_eq_nil_iff]
    intro a ha
    simp only [Bool.not_eq_true', Bool.not_eq_false]
    exact List.any_eq_true.mpr ⟨a, ha, by simp⟩
  rw [h1, List.append_nil, List.filter_filter]
  congr 1
  apply List.filter_congr
  intro x _
  rw [Bool.and_self]

/-! ## AC import filter (source: `import_level0.py`, `import_file`, AC
branch record loop) -/

/-- A decoded AC record, restricted to the fields the import filter
reads, plus the raw STW that the epoch correction is added to. -/
structure ACRecordR where
  stw : Nat
  backend : String
  frontend : Option String
  sig_type : String
  inttime : ℚ
deriving DecidableEq

/-- The AC branch of `import_file`: walk the paired streams of decoded
records and discipline flags; add the file's STW epoch correction to
each record; keep a record only when its integration time is not the
sentinel, its discipline is "AERO", its frontend is resolved and its
signal type is not "problem". -/
def acImportBatch (corr : Nat) : List (ACRecordR × String) → List ACRecordR
  | [] => []
  | p :: rest =>
    let r2 := { p.1 with stw := p.1.stw + corr }
    if r2.inttime ≠ 9999 ∧ p.2 = "AERO" ∧ r2.frontend ≠ none
        ∧ r2.sig_type ≠ "problem" then
      r2 :: acImportBatch corr rest
    else acImportBatch corr rest

/-- C7: a decoded record is serialized into the row batch exactly when
its integration time is not 9999, its discipline flag is "AERO", its
frontend is resolved and its signal type is not "problem"; every
surviving record carries the file's epoch correction on its stw. -/
theorem c7_import_filter :
    ∀ (datafile : List Char) (pairs : List (ACRecordR × String)),
      acImportBatch (stw_correction datafile) pairs
        = (pairs.filter fun p => decide (p.1.inttime ≠ 9999
            ∧ p.2 = "AERO" ∧ p.1.frontend ≠ none
            ∧ p.1.sig_type ≠ "problem")).map
            fun p => { p.1 with stw := p.1.stw + stw_correction datafile } := by
  intro f pairs
  induction pairs with
  | nil => rfl
  | cons p t ih =>
    by_cases h : p.1.inttime ≠ 9999 ∧ p.2 = "AERO" ∧ p.1.frontend ≠ none
        ∧ p.1.sig_type ≠ "problem"
    · simp [acImportBatch, List.filter_cons, h, ih]
    · simp [acImportBatch, List.filter_cons, h, ih]

/-! ## Dispatch result (source: `import_level0.py`, `import_file`,
extension dispatch and return value) -/

/-- The extensions that reach a decoding branch of `import_file`. -/
def importKnownExt (ext : List Char) : Bool :=
  ext == ".ac1".data || ext == ".ac2".data || ext == ".fba".data
    || ext == ".att".data || ext == ".shk".data

/-- The externally visible outcome of `import_file` as far as claim C8
reaches: whether the branch taken connects to the database, whether the
unknown-file-type warning is emitted, and the returned dictionary, which
the source builds as `{"name": datafile, "type": extension[1:]}` for
every input. -/
def importFileOutcome (datafile : List Char) :
    Bool × Bool × List (String × List Char) :=
  let ext := splitextExt (pyBasename datafile)
  (importKnownExt ext, !importKnownExt ext,
    [("name", datafile), ("type", ext.drop 1)])

/-- C8 as the code actually behaves, at the failing input "foo.xyz": the
unknown-extension branch emits the warning and never touches the store,
and the returned dictionary is `{"name": "foo.xyz", "type": "xyz"}` — it
has NO "imported" key at all, although the repository's own state
machine (level0_stack.py) branches on `$.ImportLevel0.Payload.imported`.
The claim's `imported = false` is what the code should return but does
not. -/
theorem c8_unknown_extension_result :
    importFileOutcome "foo.xyz".data
      = (false, true, [("name", "foo.xyz".data), ("type", "xyz".data)])
    ∧ List.lookup "imported" (importFileOutcome "foo.xyz".data).2.2
      = none := by
  constructor <;> decide

end OdinL0
